import Mathlib

/-!
Verification of the coherent transfer-matrix method (TMM) core of the
ROBAST thin-film optics engine, a shallow embedding of
`src/AMultilayer.cxx` over Mathlib's real and complex numbers.

Doubles are modelled as exact reals; `std::complex<Double_t>` as `ℂ`.
The library functions the source calls (`std::asin`, `std::cos`, `std::exp`,
`std::log` on complex arguments) are the principal-branch functions, which
is what C99/C++ prescribes; they are embedded by Mathlib's principal-branch
functions.
-/

noncomputable section

open Complex

/-- Machine epsilon of IEEE-754 binary64, the value of
`std::numeric_limits<double>::epsilon()` in the source: 2^(-52). -/
def EPSILON : ℝ := 1 / 2 ^ 52

/-- The principal branch of the complex arcsine, the function `std::asin`
computes on `std::complex` per C99 G.6: asin z = -i log(i z + (1 - z^2)^(1/2))
with the principal square root and logarithm. -/
def casin (z : ℂ) : ℂ := -I * Complex.log (I * z + (1 - z ^ 2) ^ ((1 : ℂ) / 2))

/-- Modelled from the spec: the class `ARefractiveIndex` is used by
`AMultilayer.cxx` but its header is not among the sources. Per spec §4.1/§6
a dispersion model's whole capability is a callable yielding a complex
refractive index for a (real) vacuum wavelength, so it is embedded as a
function. -/
abbrev ARefractiveIndex : Type := ℝ → ℂ

/-- The dispersion query `fRefractiveIndexList[i]->GetComplexRefractiveIndex(lam)`. -/
def GetComplexRefractiveIndex (ri : ARefractiveIndex) (lam : ℝ) : ℂ := ri lam

/-- A layer thickness: a `Double_t` in the source, where the two semi-infinite
end layers store IEEE +infinity. Modelled as either the infinity marker or a
finite real. -/
inductive Thickness where
  | inf : Thickness
  | fin : ℝ → Thickness

/-- The real number the solver's phase computation reads from a thickness.
The source computes `kz * fThicknessList[i]` at every index, producing an
IEEE infinity/NaN at the two end layers; those two entries of `delta` are
provably never read (the matrix loop and the opacity clamp run over interior
indices only), so the infinity marker is mapped to an arbitrary finite
stand-in, 0. -/
def Thickness.toD : Thickness → ℝ
  | .inf => 0
  | .fin d => d

/-- The multilayer stack: two parallel vectors, as in the source. -/
structure AMultilayer where
  fRefractiveIndexList : List ARefractiveIndex
  fThicknessList : List Thickness

/-- The effect of `v.insert(v.end() - 1, a)`: insert `a` immediately before
the last element. -/
def insertBeforeLast {α : Type} (l : List α) (a : α) : List α :=
  l.take (l.length - 1) ++ a :: l.drop (l.length - 1)

/-- `AMultilayer::InsertLayer(idx, thickness)`: both vectors get the new
entry immediately before their last element. No validation is performed. -/
def AMultilayer.InsertLayer (m : AMultilayer) (idx : ARefractiveIndex)
    (thickness : Thickness) : AMultilayer :=
  ⟨insertBeforeLast m.fRefractiveIndexList idx,
   insertBeforeLast m.fThicknessList thickness⟩

/-- The constructor `AMultilayer(top, bottom)`: push `bottom` with infinite
thickness, then `InsertLayer(top, inf)`. -/
def AMultilayer.construct (top bottom : ARefractiveIndex) : AMultilayer :=
  AMultilayer.InsertLayer ⟨[bottom], [Thickness.inf]⟩ top Thickness.inf

/-- Modelled from the spec: the class `A2x2ComplexMatrix` is used by
`AMultilayer.cxx` but its header is not among the sources. Per spec §4.2 it
is a value type of four complex components (constructed row-major, accessors
`Get00` ... `Get11`) with row-by-column product, scalar multiplication and
division by a complex scalar. -/
structure A2x2ComplexMatrix where
  Get00 : ℂ
  Get01 : ℂ
  Get10 : ℂ
  Get11 : ℂ

/-- Row-by-column matrix product (spec §4.2). -/
def A2x2ComplexMatrix.mul (A B : A2x2ComplexMatrix) : A2x2ComplexMatrix :=
  ⟨A.Get00 * B.Get00 + A.Get01 * B.Get10,
   A.Get00 * B.Get01 + A.Get01 * B.Get11,
   A.Get10 * B.Get00 + A.Get11 * B.Get10,
   A.Get10 * B.Get01 + A.Get11 * B.Get11⟩

instance : Mul A2x2ComplexMatrix := ⟨A2x2ComplexMatrix.mul⟩

/-- Left multiplication by a complex scalar (spec §4.2). -/
def A2x2ComplexMatrix.smul (c : ℂ) (A : A2x2ComplexMatrix) : A2x2ComplexMatrix :=
  ⟨c * A.Get00, c * A.Get01, c * A.Get10, c * A.Get11⟩

instance : SMul ℂ A2x2ComplexMatrix := ⟨A2x2ComplexMatrix.smul⟩

/-- Componentwise division by a complex scalar (spec §4.2). -/
def A2x2ComplexMatrix.divScalar (A : A2x2ComplexMatrix) (c : ℂ) : A2x2ComplexMatrix :=
  ⟨A.Get00 / c, A.Get01 / c, A.Get10 / c, A.Get11 / c⟩

/-- The identity matrix `A2x2ComplexMatrix(1, 0, 0, 1)`. -/
def A2x2ComplexMatrix.one : A2x2ComplexMatrix := ⟨1, 0, 0, 1⟩

/-- The zero matrix `A2x2ComplexMatrix(0, 0, 0, 0)`, the placeholder the
source pushes at the two ends of `M_list`. -/
def A2x2ComplexMatrix.zero : A2x2ComplexMatrix := ⟨0, 0, 0, 0⟩

/-- The polarization enum `EPolarization` with values `kS` and `kP`. -/
inductive EPolarization where
  | kS : EPolarization
  | kP : EPolarization

open Classical in
/-- `AMultilayer::IsForwardAngle(n, theta)`: compute `ncostheta = n * cos theta`;
if `|Im ncostheta| > 100 * EPSILON` the answer is `Im ncostheta > 0`, else it is
`Re ncostheta > 0`. The source's subsequent consistency checks only print
diagnostics and do not change the answer. -/
def IsForwardAngle (n theta : ℂ) : Prop :=
  if 100 * EPSILON < |(n * Complex.cos theta).im| then 0 < (n * Complex.cos theta).im
  else 0 < (n * Complex.cos theta).re

/-- The body of the first loop of `AMultilayer::ListSnell`: the principal
arcsine of `n_list[0] * sin(th_0) / n_list[i]` (out-of-range reads default
to 0, which the source never performs on in-range inputs). -/
def snellAngle (th_0 : ℂ) (n_list : List ℂ) (i : ℕ) : ℂ :=
  casin (n_list.getD 0 0 * Complex.sin th_0 / n_list.getD i 0)

open Classical in
/-- `AMultilayer::ListSnell`: build the list of `snellAngle` values for every
index, then replace the front entry by pi minus itself when it fails the
forward-angle diagnostic against `n_list[0]`, then likewise the back entry
against `n_list.back()`. -/
def ListSnell (th_0 : ℂ) (n_list : List ℂ) : List ℂ :=
  let th := (List.range n_list.length).map (snellAngle th_0 n_list)
  let th1 := if IsForwardAngle (n_list.getD 0 0) (th.getD 0 0) then th
             else th.set 0 ((Real.pi : ℂ) - th.getD 0 0)
  if IsForwardAngle (n_list.getLastD 0) (th1.getLastD 0) then th1
  else th1.set (th1.length - 1) ((Real.pi : ℂ) - th1.getLastD 0)

variable (polarization : EPolarization) (th_0 : ℂ) (lam_vac : ℝ) (m : AMultilayer)

/-- `num_layers = fRefractiveIndexList.size()`. -/
def numLayers : ℕ := m.fRefractiveIndexList.length

/-- The list `n_list`: each layer's complex refractive index at `lam_vac`. -/
def nList : List ℂ :=
  m.fRefractiveIndexList.map (fun ri => GetComplexRefractiveIndex ri lam_vac)

/-- The input-test condition of `CoherentTMM` (lines 165-166):
`|Im(n_list[0] * sin th_0)| >= 100 * EPSILON` or `th_0` not forward in layer 0.
When it holds the source prints a diagnostic and continues. -/
def inputErrCond : Prop :=
  100 * EPSILON ≤ |((nList lam_vac m).getD 0 0 * Complex.sin th_0).im| ∨
    ¬ IsForwardAngle ((nList lam_vac m).getD 0 0) th_0

/-- The list `th_list` of per-layer propagation angles. -/
def thList : List ℂ := ListSnell th_0 (nList lam_vac m)

/-- The list `kz_list`: `TwoPi() * n_list[i] * cos(th_list[i]) / lam_vac`. -/
def kzList : List ℂ :=
  List.zipWith (fun n th => 2 * (Real.pi : ℂ) * n * Complex.cos th / (lam_vac : ℂ))
    (nList lam_vac m) (thList th_0 lam_vac m)

/-- The list `delta` of per-layer phases: `kz_list[i] * fThicknessList[i]`. -/
def deltaList : List ℂ :=
  List.zipWith (fun kz d => kz * (d.toD : ℂ))
    (kzList th_0 lam_vac m) m.fThicknessList

open Classical in
/-- The opacity clamp loop (lines 194-207): for interior indices
`1 <= i < num_layers - 1` with `Im delta[i] > 35`, replace `delta[i]` by
`Re delta[i] + 35i`; every other entry is left unchanged. -/
def clampedDelta : List ℂ :=
  (List.range (deltaList th_0 lam_vac m).length).map (fun i =>
    let d := (deltaList th_0 lam_vac m).getD i 0
    if 1 ≤ i ∧ i < numLayers m - 1 ∧ 35 < d.im then ⟨d.re, 35⟩ else d)

/-- The list `t_list` of interface transmission amplitudes (lines 215-229),
one entry per `0 <= i < num_layers - 1`; the source allocates one extra slot
it never writes nor reads, which value-defaults to 0 here as there. -/
def tList : List ℂ :=
  (List.range (numLayers m - 1)).map (fun i =>
    let cosi := Complex.cos ((thList th_0 lam_vac m).getD i 0)
    let cosf := Complex.cos ((thList th_0 lam_vac m).getD (i + 1) 0)
    let ii := (nList lam_vac m).getD i 0 * cosi
    match polarization with
    | .kS =>
      let ff := (nList lam_vac m).getD (i + 1) 0 * cosf
      2 * ii / (ii + ff)
    | .kP =>
      let fi := (nList lam_vac m).getD (i + 1) 0 * cosi
      let if_ := (nList lam_vac m).getD i 0 * cosf
      2 * ii / (fi + if_))

/-- The list `r_list` of interface reflection amplitudes (lines 215-229). -/
def rList : List ℂ :=
  (List.range (numLayers m - 1)).map (fun i =>
    let cosi := Complex.cos ((thList th_0 lam_vac m).getD i 0)
    let cosf := Complex.cos ((thList th_0 lam_vac m).getD (i + 1) 0)
    let ii := (nList lam_vac m).getD i 0 * cosi
    match polarization with
    | .kS =>
      let ff := (nList lam_vac m).getD (i + 1) 0 * cosf
      (ii - ff) / (ii + ff)
    | .kP =>
      let fi := (nList lam_vac m).getD (i + 1) 0 * cosi
      let if_ := (nList lam_vac m).getD i 0 * cosf
      (fi - if_) / (fi + if_))

/-- The list `M_list` (lines 238-249): a zero placeholder, then for each
interior index `1 <= i <= num_layers - 2` the matrix
`(1 / t_list[i]) * [[exp(-j delta[i]), 0], [0, exp(j delta[i])]] * [[1, r_list[i]], [r_list[i], 1]]`
(with the clamped phases), then a zero placeholder. -/
def MList : List A2x2ComplexMatrix :=
  A2x2ComplexMatrix.zero ::
    ((List.range' 1 (numLayers m - 2)).map (fun i =>
      ((1 / (tList polarization th_0 lam_vac m).getD i 0) •
        (⟨Complex.exp (-(I * (clampedDelta th_0 lam_vac m).getD i 0)), 0, 0,
          Complex.exp (I * (clampedDelta th_0 lam_vac m).getD i 0)⟩ :
            A2x2ComplexMatrix)) *
       (⟨1, (rList polarization th_0 lam_vac m).getD i 0,
         (rList polarization th_0 lam_vac m).getD i 0, 1⟩ : A2x2ComplexMatrix))) ++
    [A2x2ComplexMatrix.zero]

/-- The accumulation loop for `Mtilde` (lines 251-255): starting from the
identity, right-multiply by `M_list[i]` for `i = 1 .. num_layers - 2`. -/
def MtildeInner : A2x2ComplexMatrix :=
  (List.range' 1 (numLayers m - 2)).foldl
    (fun acc i => acc * (MList polarization th_0 lam_vac m).getD i A2x2ComplexMatrix.zero)
    A2x2ComplexMatrix.one

/-- Line 257: `Mtilde = A2x2ComplexMatrix(1, r_list[0], r_list[0], 1) / t_list[0] * Mtilde`. -/
def Mtilde : A2x2ComplexMatrix :=
  ((⟨1, (rList polarization th_0 lam_vac m).getD 0 0,
     (rList polarization th_0 lam_vac m).getD 0 0, 1⟩ :
       A2x2ComplexMatrix).divScalar ((tList polarization th_0 lam_vac m).getD 0 0)) *
    MtildeInner polarization th_0 lam_vac m

/-- The net complex reflection amplitude `r = Mtilde.Get10() / Mtilde.Get00()`. -/
def rAmp : ℂ :=
  (Mtilde polarization th_0 lam_vac m).Get10 / (Mtilde polarization th_0 lam_vac m).Get00

/-- The net complex transmission amplitude `t = 1 / Mtilde.Get00()`. -/
def tAmp : ℂ := 1 / (Mtilde polarization th_0 lam_vac m).Get00

/-- Line 284: `reflectance = std::abs(r) * std::abs(r)`. -/
def reflectance : ℝ :=
  Complex.abs (rAmp polarization th_0 lam_vac m) *
    Complex.abs (rAmp polarization th_0 lam_vac m)

/-- Lines 285-295: the transmitted power. `n_i = n_list[0]`, `n_f = n_list.back()`,
`th_i = th_0`, `th_f = th_list.back()`; for S polarization
`abs(t * t) * Re(n_f cos th_f) / Re(n_i cos th_i)`, for P polarization the
cosines are conjugated. -/
def transmittance : ℝ :=
  let t := tAmp polarization th_0 lam_vac m
  let n_i := (nList lam_vac m).getD 0 0
  let n_f := (nList lam_vac m).getLastD 0
  let th_f := (thList th_0 lam_vac m).getLastD 0
  match polarization with
  | .kS => Complex.abs (t * t) *
      ((n_f * Complex.cos th_f).re / (n_i * Complex.cos th_0).re)
  | .kP => Complex.abs (t * t) *
      ((n_f * star (Complex.cos th_f)).re / (n_i * star (Complex.cos th_0)).re)

/-- The process-wide one-shot warning latch, `static Bool_t opacity_warning`. -/
structure ProcState where
  opacity_warning : Prop

/-- What one call of `CoherentTMM` surfaces besides the latch: whether the
input test printed its diagnostic, and the pair written through the
`reflectance` / `transmittance` reference parameters. The source writes the
pair unconditionally, so `result` is always `some`. -/
structure SolveOutcome where
  inputErrorReported : Prop
  result : Option (ℝ × ℝ)

/-- Whether the opacity clamp fires at all in one call: some interior layer
has `Im delta[i] > 35`. -/
def clampFires : Prop :=
  ∃ i, 1 ≤ i ∧ i < numLayers m - 1 ∧ 35 < ((deltaList th_0 lam_vac m).getD i 0).im

open Classical in
/-- `AMultilayer::CoherentTMM`, threading the static latch explicitly: the
outcome, the new latch state, and how many opacity warnings the call printed
(the source prints one exactly when the clamp fires with the latch unset,
setting the latch). -/
def CoherentTMM (s : ProcState) : SolveOutcome × ProcState × ℕ :=
  (⟨inputErrCond th_0 lam_vac m,
    some (reflectance polarization th_0 lam_vac m,
          transmittance polarization th_0 lam_vac m)⟩,
   ⟨s.opacity_warning ∨ clampFires th_0 lam_vac m⟩,
   if ¬ s.opacity_warning ∧ clampFires th_0 lam_vac m then 1 else 0)

/-- The arguments of one solve call. -/
structure SolveInput where
  polarization : EPolarization
  th_0 : ℂ
  lam_vac : ℝ
  m : AMultilayer

/-- A process: a sequence of solve calls threading the latch, accumulating
the number of opacity warnings printed. -/
def runProcess : List SolveInput → ProcState → ProcState × ℕ
  | [], s => (s, 0)
  | inp :: rest, s =>
    let r := CoherentTMM inp.polarization inp.th_0 inp.lam_vac inp.m s
    let r2 := runProcess rest r.2.1
    (r2.1, r.2.2 + r2.2)

/-- Stated from the spec (§4.4.6): the per-layer matrix
`M_i = (1 / t_i) * [[exp(-j delta_i), 0], [0, exp(j delta_i)]] * [[1, r_i], [r_i, 1]]`,
written over the solver's own per-layer quantities, to be compared with the
entries the source builds into `M_list`. -/
def specLayerMatrix (i : ℕ) : A2x2ComplexMatrix :=
  (1 / (tList polarization th_0 lam_vac m).getD i 0) •
    ((⟨Complex.exp (-(I * (clampedDelta th_0 lam_vac m).getD i 0)), 0, 0,
       Complex.exp (I * (clampedDelta th_0 lam_vac m).getD i 0)⟩ : A2x2ComplexMatrix) *
     (⟨1, (rList polarization th_0 lam_vac m).getD i 0,
       (rList polarization th_0 lam_vac m).getD i 0, 1⟩ : A2x2ComplexMatrix))

/-- A constant dispersion model of index 1 (vacuum), used as concrete input. -/
def constOne : ARefractiveIndex := fun _ => 1

/-- A concrete two-layer stack: vacuum above vacuum. -/
def mTwo : AMultilayer := AMultilayer.construct constOne constOne

/-- A concrete three-layer stack: vacuum / 100-thick vacuum film / vacuum. -/
def mThree : AMultilayer := mTwo.InsertLayer constOne (Thickness.fin 100)

end

/-! ## Helper lemmas -/

theorem getD_map_range {β : Type} (f : ℕ → β) (k i : ℕ) (hi : i < k) (d : β) :
    ((List.range k).map f).getD i d = f i := by
  rw [List.getD_eq_getElem _ _ (by simpa using hi)]
  simp

theorem getD_map_range' {β : Type} (f : ℕ → β) (s k j : ℕ) (hj : j < k) (d : β) :
    ((List.range' s k).map f).getD j d = f (s + j) := by
  rw [List.getD_eq_getElem _ _ (by simpa using hj)]
  simp [List.getElem_range']

theorem getD_append_left {β : Type} (l1 l2 : List β) (j : ℕ) (h : j < l1.length) (d : β) :
    (l1 ++ l2).getD j d = l1.getD j d := by
  rw [List.getD_eq_getElem?_getD, List.getD_eq_getElem?_getD, List.getElem?_append, if_pos h]

theorem A2x2_mul_eq (A B : A2x2ComplexMatrix) : A * B = A2x2ComplexMatrix.mul A B := rfl

theorem A2x2_smul_eq (c : ℂ) (A : A2x2ComplexMatrix) :
    c • A = A2x2ComplexMatrix.smul c A := rfl

theorem A2x2_smul_mul (c : ℂ) (A B : A2x2ComplexMatrix) :
    (c • A) * B = c • (A * B) := by
  cases A; cases B
  simp only [A2x2_mul_eq, A2x2_smul_eq, A2x2ComplexMatrix.mul, A2x2ComplexMatrix.smul,
    A2x2ComplexMatrix.mk.injEq]
  refine ⟨?_, ?_, ?_, ?_⟩ <;> ring

theorem A2x2_divScalar_eq_smul (A : A2x2ComplexMatrix) (c : ℂ) :
    A.divScalar c = (1 / c) • A := by
  cases A
  simp only [A2x2ComplexMatrix.divScalar, A2x2_smul_eq, A2x2ComplexMatrix.smul,
    A2x2ComplexMatrix.mk.injEq]
  refine ⟨?_, ?_, ?_, ?_⟩ <;> ring

theorem EPSILON_pos : 0 < EPSILON := by norm_num [EPSILON]

theorem casin_zero : casin 0 = 0 := by
  simp [casin, Complex.one_cpow]

theorem isForwardAngle_one_zero : IsForwardAngle 1 0 := by
  unfold IsForwardAngle
  rw [if_neg]
  · simp
  · simp only [Complex.cos_zero, mul_one, Complex.one_im, abs_zero, not_lt]
    have := EPSILON_pos
    nlinarith

/-! ## Claim C5: the forward-angle diagnostic -/

/-- Claim C5: for every complex index `n` and complex angle `theta`,
`IsForwardAngle n theta` holds iff: when `|Im(n cos theta)| > 100 eps`,
`Im(n cos theta) > 0`; and otherwise `Re(n cos theta) > 0`. -/
theorem c5_forward_angle_criterion (n theta : ℂ) :
    IsForwardAngle n theta ↔
      ((100 * EPSILON < |(n * Complex.cos theta).im| ∧ 0 < (n * Complex.cos theta).im) ∨
       (¬ 100 * EPSILON < |(n * Complex.cos theta).im| ∧ 0 < (n * Complex.cos theta).re)) := by
  unfold IsForwardAngle
  by_cases h : 100 * EPSILON < |(n * Complex.cos theta).im|
  · rw [if_pos h]; tauto
  · rw [if_neg h]; tauto

/-! ## Claim C2: reflectance and transmittance from the amplitudes -/

/-- Claim C2: for every solve the returned reflectance is `|r|^2`, and the
returned transmittance is `|t|^2 Re(n_f cos th_f) / Re(n_i cos th_i)` for S
polarization and `|t|^2 Re(n_f conj(cos th_f)) / Re(n_i conj(cos th_i))` for
P polarization, where layer `i` is layer 0 with `th_i` the input `th_0` and
layer `f` is the last layer with `th_f` the branch-corrected last Snell
angle. -/
theorem c2_observables (th0 : ℂ) (lam : ℝ) (m : AMultilayer) :
    (∀ pol, reflectance pol th0 lam m = Complex.abs (rAmp pol th0 lam m) ^ 2) ∧
    transmittance EPolarization.kS th0 lam m =
      Complex.abs (tAmp EPolarization.kS th0 lam m) ^ 2 *
        (((nList lam m).getLastD 0 * Complex.cos ((thList th0 lam m).getLastD 0)).re /
         ((nList lam m).getD 0 0 * Complex.cos th0).re) ∧
    transmittance EPolarization.kP th0 lam m =
      Complex.abs (tAmp EPolarization.kP th0 lam m) ^ 2 *
        (((nList lam m).getLastD 0 * star (Complex.cos ((thList th0 lam m).getLastD 0))).re /
         ((nList lam m).getD 0 0 * star (Complex.cos th0)).re) := by
  refine ⟨fun pol => ?_, ?_, ?_⟩ <;>
    simp [reflectance, transmittance, pow_two, map_mul]

/-! ## Claim C7: Fresnel interface amplitudes -/

/-- Claim C7: for every adjacent layer pair `(i, i+1)`, with `c_i`, `c_{i+1}`
the cosines of the layer angles, the solver computes
`t_i = 2 n_i c_i / (n_i c_i + n_{i+1} c_{i+1})` and
`r_i = (n_i c_i - n_{i+1} c_{i+1}) / (n_i c_i + n_{i+1} c_{i+1})` for S
polarization, and `t_i = 2 n_i c_i / (n_{i+1} c_i + n_i c_{i+1})`,
`r_i = (n_{i+1} c_i - n_i c_{i+1}) / (n_{i+1} c_i + n_i c_{i+1})` for P
polarization. -/
theorem c7_fresnel_amplitudes (th0 : ℂ) (lam : ℝ) (m : AMultilayer) (i : ℕ)
    (hi : i < numLayers m - 1) :
    ((tList EPolarization.kS th0 lam m).getD i 0 =
      2 * ((nList lam m).getD i 0 * Complex.cos ((thList th0 lam m).getD i 0)) /
        ((nList lam m).getD i 0 * Complex.cos ((thList th0 lam m).getD i 0) +
         (nList lam m).getD (i + 1) 0 * Complex.cos ((thList th0 lam m).getD (i + 1) 0))) ∧
    ((rList EPolarization.kS th0 lam m).getD i 0 =
      ((nList lam m).getD i 0 * Complex.cos ((thList th0 lam m).getD i 0) -
       (nList lam m).getD (i + 1) 0 * Complex.cos ((thList th0 lam m).getD (i + 1) 0)) /
        ((nList lam m).getD i 0 * Complex.cos ((thList th0 lam m).getD i 0) +
         (nList lam m).getD (i + 1) 0 * Complex.cos ((thList th0 lam m).getD (i + 1) 0))) ∧
    ((tList EPolarization.kP th0 lam m).getD i 0 =
      2 * ((nList lam m).getD i 0 * Complex.cos ((thList th0 lam m).getD i 0)) /
        ((nList lam m).getD (i + 1) 0 * Complex.cos ((thList th0 lam m).getD i 0) +
         (nList lam m).getD i 0 * Complex.cos ((thList th0 lam m).getD (i + 1) 0))) ∧
    ((rList EPolarization.kP th0 lam m).getD i 0 =
      ((nList lam m).getD (i + 1) 0 * Complex.cos ((thList th0 lam m).getD i 0) -
       (nList lam m).getD i 0 * Complex.cos ((thList th0 lam m).getD (i + 1) 0)) /
        ((nList lam m).getD (i + 1) 0 * Complex.cos ((thList th0 lam m).getD i 0) +
         (nList lam m).getD i 0 * Complex.cos ((thList th0 lam m).getD (i + 1) 0))) := by
  refine ⟨?_, ?_, ?_, ?_⟩
  · simp only [tList]; rw [getD_map_range _ _ _ hi]
  · simp only [rList]; rw [getD_map_range _ _ _ hi]
  · simp only [tList]; rw [getD_map_range _ _ _ hi]
  · simp only [rList]; rw [getD_map_range _ _ _ hi]

/-- Witness for C7: the S-polarization transmission amplitude of the first
interface of the concrete two-layer stack. -/
theorem c7_fresnel_amplitudes_witness :
    (tList EPolarization.kS 0 500 mTwo).getD 0 0 =
      2 * ((nList 500 mTwo).getD 0 0 * Complex.cos ((thList 0 500 mTwo).getD 0 0)) /
        ((nList 500 mTwo).getD 0 0 * Complex.cos ((thList 0 500 mTwo).getD 0 0) +
         (nList 500 mTwo).getD 1 0 * Complex.cos ((thList 0 500 mTwo).getD 1 0)) :=
  (c7_fresnel_amplitudes 0 500 mTwo 0 (by decide)).1

/-! ## Claim C10: InsertLayer performs no validation -/

/-- Claim C10: `InsertLayer` validates nothing: for every thickness value
(zero, negative or infinite included) the call succeeds and stores the
(model, thickness) pair exactly as given, immediately before the last
element of each vector. -/
theorem c10_insertLayer_no_validation (s : AMultilayer) (idx : ARefractiveIndex)
    (t : Thickness) (hth : s.fThicknessList ≠ []) (hidx : s.fRefractiveIndexList ≠ []) :
    (s.InsertLayer idx t).fThicknessList[s.fThicknessList.length - 1]? = some t ∧
    (s.InsertLayer idx t).fRefractiveIndexList[s.fRefractiveIndexList.length - 1]? = some idx ∧
    (s.InsertLayer idx t).fThicknessList.length = s.fThicknessList.length + 1 ∧
    (s.InsertLayer idx t).fRefractiveIndexList.length = s.fRefractiveIndexList.length + 1 := by
  have h1 : 1 ≤ s.fThicknessList.length := List.length_pos.mpr hth
  have h2 : 1 ≤ s.fRefractiveIndexList.length := List.length_pos.mpr hidx
  refine ⟨?_, ?_, ?_, ?_⟩
  · rw [AMultilayer.InsertLayer]
    show (insertBeforeLast s.fThicknessList t)[s.fThicknessList.length - 1]? = some t
    rw [insertBeforeLast, List.getElem?_append_right (by simp)]
    simp
  · rw [AMultilayer.InsertLayer]
    show (insertBeforeLast s.fRefractiveIndexList idx)[s.fRefractiveIndexList.length - 1]? =
      some idx
    rw [insertBeforeLast, List.getElem?_append_right (by simp)]
    simp
  · simp [AMultilayer.InsertLayer, insertBeforeLast]
    omega
  · simp [AMultilayer.InsertLayer, insertBeforeLast]
    omega

/-- Witness for C10: inserting a layer of negative thickness into the
concrete two-layer stack succeeds and stores it verbatim at position 1. -/
theorem c10_insertLayer_no_validation_witness :
    (mTwo.InsertLayer constOne (Thickness.fin (-3))).fThicknessList[1]? =
      some (Thickness.fin (-3)) :=
  (c10_insertLayer_no_validation mTwo constOne (Thickness.fin (-3))
    (by simp [mTwo, AMultilayer.construct, AMultilayer.InsertLayer, insertBeforeLast])
    (by simp [mTwo, AMultilayer.construct, AMultilayer.InsertLayer, insertBeforeLast])).1

/-! ## Claim C9: the stack structure invariant -/

theorem length_insertBeforeLast {α : Type} (l : List α) (a : α) :
    (insertBeforeLast l a).length = l.length + 1 := by
  simp [insertBeforeLast]
  omega

theorem head?_insertBeforeLast {α : Type} (l : List α) (a : α) (h : 2 ≤ l.length) :
    (insertBeforeLast l a).head? = l.head? := by
  rw [List.head?_eq_getElem?, List.head?_eq_getElem?, insertBeforeLast, List.getElem?_append,
    if_pos (by simp; omega), List.getElem?_take, if_pos (by omega)]

theorem getLast?_insertBeforeLast {α : Type} (l : List α) (a : α) (h : l ≠ []) :
    (insertBeforeLast l a).getLast? = l.getLast? := by
  have hl : 1 ≤ l.length := List.length_pos.mpr h
  rw [List.getLast?_eq_getElem?, List.getLast?_eq_getElem?, length_insertBeforeLast,
    Nat.add_sub_cancel]
  rw [insertBeforeLast, List.getElem?_append, if_neg (by simp)]
  have h1 : l.length - (l.take (l.length - 1)).length = 0 + 1 := by simp; omega
  rw [h1, List.getElem?_cons_succ, List.getElem?_drop]
  simp

theorem drop_length_pred {α : Type} :
    ∀ (l : List α) (x : α), l.getLast? = some x → l.drop (l.length - 1) = [x]
  | [], x, h => by simp at h
  | [y], x, h => by
    simp only [List.getLast?_singleton, Option.some.injEq] at h
    simp [h]
  | y :: z :: tl, x, h => by
    have h' : (z :: tl).getLast? = some x := by rwa [List.getLast?_cons_cons] at h
    have ih := drop_length_pred (z :: tl) x h'
    have hlen : (y :: z :: tl).length - 1 = (z :: tl).length - 1 + 1 := by simp
    rw [hlen, List.drop_succ_cons]
    exact ih

theorem insertBeforeLast_eq_dropLast {α : Type} (l : List α) (a x : α)
    (hx : l.getLast? = some x) :
    insertBeforeLast l a = l.dropLast ++ [a, x] := by
  rw [insertBeforeLast, drop_length_pred l x hx, List.dropLast_eq_take]

/-- The single-step preservation of the stack invariant. -/
theorem insertLayer_preserves (s : AMultilayer) (idx : ARefractiveIndex) (t : Thickness)
    (h2 : 2 ≤ s.fRefractiveIndexList.length)
    (hlen : s.fThicknessList.length = s.fRefractiveIndexList.length) :
    2 ≤ (s.InsertLayer idx t).fRefractiveIndexList.length ∧
    (s.InsertLayer idx t).fThicknessList.length =
      (s.InsertLayer idx t).fRefractiveIndexList.length ∧
    (s.InsertLayer idx t).fRefractiveIndexList.head? = s.fRefractiveIndexList.head? ∧
    (s.InsertLayer idx t).fRefractiveIndexList.getLast? = s.fRefractiveIndexList.getLast? ∧
    (s.InsertLayer idx t).fThicknessList.head? = s.fThicknessList.head? ∧
    (s.InsertLayer idx t).fThicknessList.getLast? = s.fThicknessList.getLast? := by
  refine ⟨?_, ?_, ?_, ?_, ?_, ?_⟩
  · rw [AMultilayer.InsertLayer]
    show 2 ≤ (insertBeforeLast s.fRefractiveIndexList idx).length
    rw [length_insertBeforeLast]
    omega
  · show (insertBeforeLast s.fThicknessList t).length =
      (insertBeforeLast s.fRefractiveIndexList idx).length
    rw [length_insertBeforeLast, length_insertBeforeLast, hlen]
  · exact head?_insertBeforeLast _ _ h2
  · exact getLast?_insertBeforeLast _ _ (by intro hnil; rw [hnil] at h2; simp at h2)
  · exact head?_insertBeforeLast _ _ (by omega)
  · exact getLast?_insertBeforeLast _ _
      (by intro hnil; rw [hnil] at hlen; simp at hlen; omega)

/-- The stack invariant survives any sequence of insertions. -/
theorem foldl_insertLayer_inv (ops : List (ARefractiveIndex × Thickness)) :
    ∀ s : AMultilayer, 2 ≤ s.fRefractiveIndexList.length →
      s.fThicknessList.length = s.fRefractiveIndexList.length →
      2 ≤ (ops.foldl (fun acc p => acc.InsertLayer p.1 p.2) s).fRefractiveIndexList.length ∧
      (ops.foldl (fun acc p => acc.InsertLayer p.1 p.2) s).fThicknessList.length =
        (ops.foldl (fun acc p => acc.InsertLayer p.1 p.2) s).fRefractiveIndexList.length ∧
      (ops.foldl (fun acc p => acc.InsertLayer p.1 p.2) s).fRefractiveIndexList.head? =
        s.fRefractiveIndexList.head? ∧
      (ops.foldl (fun acc p => acc.InsertLayer p.1 p.2) s).fRefractiveIndexList.getLast? =
        s.fRefractiveIndexList.getLast? ∧
      (ops.foldl (fun acc p => acc.InsertLayer p.1 p.2) s).fThicknessList.head? =
        s.fThicknessList.head? ∧
      (ops.foldl (fun acc p => acc.InsertLayer p.1 p.2) s).fThicknessList.getLast? =
        s.fThicknessList.getLast? := by
  induction ops with
  | nil => intro s h2 hlen; simp [h2, hlen]
  | cons p rest ih =>
    intro s h2 hlen
    have step := insertLayer_preserves s p.1 p.2 h2 hlen
    have next := ih (s.InsertLayer p.1 p.2) step.1 step.2.1
    simp only [List.foldl_cons]
    exact ⟨next.1, next.2.1,
      next.2.2.1.trans step.2.2.1,
      next.2.2.2.1.trans step.2.2.2.1,
      next.2.2.2.2.1.trans step.2.2.2.2.1,
      next.2.2.2.2.2.trans step.2.2.2.2.2⟩

/-- Claim C9: construction from (top, bottom) yields exactly
[top(inf), bottom(inf)]; every `InsertLayer` inserts the new layer
immediately before the last element; and after any sequence of insertions
the stack has at least two layers, position 0 holds the original top,
position N-1 holds the original bottom, and both still have infinite
thickness. -/
theorem c9_stack_invariant (top bottom : ARefractiveIndex)
    (ops : List (ARefractiveIndex × Thickness)) :
    (AMultilayer.construct top bottom).fRefractiveIndexList = [top, bottom] ∧
    (AMultilayer.construct top bottom).fThicknessList = [Thickness.inf, Thickness.inf] ∧
    (∀ (s : AMultilayer) (idx : ARefractiveIndex) (t : Thickness) (x : ARefractiveIndex),
        s.fRefractiveIndexList.getLast? = some x →
        (s.InsertLayer idx t).fRefractiveIndexList =
          s.fRefractiveIndexList.dropLast ++ [idx, x]) ∧
    (∀ (s : AMultilayer) (idx : ARefractiveIndex) (t : Thickness) (y : Thickness),
        s.fThicknessList.getLast? = some y →
        (s.InsertLayer idx t).fThicknessList = s.fThicknessList.dropLast ++ [t, y]) ∧
    (2 ≤ (ops.foldl (fun acc p => acc.InsertLayer p.1 p.2)
            (AMultilayer.construct top bottom)).fRefractiveIndexList.length ∧
     (ops.foldl (fun acc p => acc.InsertLayer p.1 p.2)
        (AMultilayer.construct top bottom)).fThicknessList.length =
       (ops.foldl (fun acc p => acc.InsertLayer p.1 p.2)
          (AMultilayer.construct top bottom)).fRefractiveIndexList.length ∧
     (ops.foldl (fun acc p => acc.InsertLayer p.1 p.2)
        (AMultilayer.construct top bottom)).fRefractiveIndexList.head? = some top ∧
     (ops.foldl (fun acc p => acc.InsertLayer p.1 p.2)
        (AMultilayer.construct top bottom)).fRefractiveIndexList.getLast? = some bottom ∧
     (ops.foldl (fun acc p => acc.InsertLayer p.1 p.2)
        (AMultilayer.construct top bottom)).fThicknessList.head? = some Thickness.inf ∧
     (ops.foldl (fun acc p => acc.InsertLayer p.1 p.2)
        (AMultilayer.construct top bottom)).fThicknessList.getLast? = some Thickness.inf) := by
  have hc1 : (AMultilayer.construct top bottom).fRefractiveIndexList = [top, bottom] := rfl
  have hc2 : (AMultilayer.construct top bottom).fThicknessList =
      [Thickness.inf, Thickness.inf] := rfl
  have inv := foldl_insertLayer_inv ops (AMultilayer.construct top bottom)
    (by rw [hc1]; simp) (by rw [hc1, hc2]; rfl)
  refine ⟨hc1, hc2, ?_, ?_, inv.1, inv.2.1, ?_, ?_, ?_, ?_⟩
  · intro s idx t x hx
    exact insertBeforeLast_eq_dropLast _ _ _ hx
  · intro s idx t y hy
    exact insertBeforeLast_eq_dropLast _ _ _ hy
  · rw [inv.2.2.1, hc1]; rfl
  · rw [inv.2.2.2.1, hc1]; rfl
  · rw [inv.2.2.2.2.1, hc2]; rfl
  · rw [inv.2.2.2.2.2, hc2]; rfl

/-! ## Claim C8: the opacity clamp and the one-shot warning latch -/

theorem length_ite_set (c : Prop) [Decidable c] (l : List ℂ) (i : ℕ) (x : ℂ) :
    (if c then l else l.set i x).length = l.length := by
  split_ifs <;> simp

theorem listSnell_length (th0 : ℂ) (nl : List ℂ) : (ListSnell th0 nl).length = nl.length := by
  simp only [ListSnell]
  rw [length_ite_set, length_ite_set]
  simp

theorem thList_length (th0 : ℂ) (lam : ℝ) (m : AMultilayer) :
    (thList th0 lam m).length = numLayers m := by
  simp [thList, listSnell_length, nList, numLayers]

theorem deltaList_length (th0 : ℂ) (lam : ℝ) (m : AMultilayer)
    (hwf : m.fThicknessList.length = m.fRefractiveIndexList.length) :
    (deltaList th0 lam m).length = numLayers m := by
  simp [deltaList, kzList, listSnell_length, thList, nList, numLayers, hwf]

theorem clampedDelta_length (th0 : ℂ) (lam : ℝ) (m : AMultilayer) :
    (clampedDelta th0 lam m).length = (deltaList th0 lam m).length := by
  simp [clampedDelta]

open Classical in
theorem clampedDelta_getD (th0 : ℂ) (lam : ℝ) (m : AMultilayer) (i : ℕ)
    (hi : i < (deltaList th0 lam m).length) :
    (clampedDelta th0 lam m).getD i 0 =
      if 1 ≤ i ∧ i < numLayers m - 1 ∧ 35 < ((deltaList th0 lam m).getD i 0).im
      then ⟨((deltaList th0 lam m).getD i 0).re, 35⟩
      else (deltaList th0 lam m).getD i 0 := by
  simp only [clampedDelta]
  rw [getD_map_range _ _ _ hi]

theorem runProcess_latched (inputs : List SolveInput) :
    ∀ s : ProcState, s.opacity_warning →
      (runProcess inputs s).2 = 0 ∧ (runProcess inputs s).1.opacity_warning := by
  induction inputs with
  | nil => intro s hs; exact ⟨rfl, hs⟩
  | cons inp rest ih =>
    intro s hs
    simp only [runProcess]
    have hw : (CoherentTMM inp.polarization inp.th_0 inp.lam_vac inp.m s).2.2 = 0 := by
      simp only [CoherentTMM]
      rw [if_neg]
      tauto
    have hl : (CoherentTMM inp.polarization inp.th_0 inp.lam_vac inp.m s).2.1.opacity_warning :=
      Or.inl hs
    have hrest := ih _ hl
    exact ⟨by rw [hw, hrest.1], hrest.2⟩

theorem runProcess_le_one (inputs : List SolveInput) :
    ∀ s : ProcState, (runProcess inputs s).2 ≤ 1 := by
  induction inputs with
  | nil => intro s; simp [runProcess]
  | cons inp rest ih =>
    intro s
    simp only [runProcess]
    by_cases h : ¬ s.opacity_warning ∧ clampFires inp.th_0 inp.lam_vac inp.m
    · have hw : (CoherentTMM inp.polarization inp.th_0 inp.lam_vac inp.m s).2.2 = 1 := by
        simp only [CoherentTMM]
        rw [if_pos h]
      have hl : (CoherentTMM inp.polarization inp.th_0 inp.lam_vac
          inp.m s).2.1.opacity_warning := Or.inr h.2
      have hrest := (runProcess_latched rest _ hl).1
      rw [hw, hrest]
    · have hw : (CoherentTMM inp.polarization inp.th_0 inp.lam_vac inp.m s).2.2 = 0 := by
        simp only [CoherentTMM]
        rw [if_neg h]
      rw [hw]
      simpa using ih _

/-- Claim C8: interior layers with `Im delta > 35` get their phase replaced
by `Re delta + 35 i` before the matrices are built; the two semi-infinite
endpoint layers (and every non-interior index) are never clamped; the
returned outcome does not depend on the state of the one-shot warning
latch; and a process never prints the opacity warning more than once. -/
theorem c8_opacity_clamp (pol : EPolarization) (th0 : ℂ) (lam : ℝ) (m : AMultilayer)
    (hwf : m.fThicknessList.length = m.fRefractiveIndexList.length) :
    (∀ i, 1 ≤ i → i < numLayers m - 1 →
        35 < ((deltaList th0 lam m).getD i 0).im →
        (clampedDelta th0 lam m).getD i 0 =
          ⟨((deltaList th0 lam m).getD i 0).re, 35⟩) ∧
    (∀ i, ¬ (1 ≤ i ∧ i < numLayers m - 1) →
        (clampedDelta th0 lam m).getD i 0 = (deltaList th0 lam m).getD i 0) ∧
    (∀ s s' : ProcState,
        (CoherentTMM pol th0 lam m s).1 = (CoherentTMM pol th0 lam m s').1) ∧
    (∀ inputs : List SolveInput, (runProcess inputs ⟨False⟩).2 ≤ 1) := by
  refine ⟨?_, ?_, ?_, ?_⟩
  · intro i h1 h2 h3
    have hi : i < (deltaList th0 lam m).length := by
      rw [deltaList_length th0 lam m hwf]
      omega
    rw [clampedDelta_getD th0 lam m i hi, if_pos ⟨h1, h2, h3⟩]
  · intro i hni
    by_cases hi : i < (deltaList th0 lam m).length
    · rw [clampedDelta_getD th0 lam m i hi, if_neg (by tauto)]
    · push_neg at hi
      rw [List.getD_eq_default _ _ (le_trans (le_of_eq (clampedDelta_length th0 lam m)) hi),
        List.getD_eq_default _ _ hi]
  · intro s s'
    rfl
  · intro inputs
    exact runProcess_le_one inputs ⟨False⟩

/-- Witness for C8: on the concrete two-layer stack the outcome is the same
whether the warning latch starts set or unset. -/
theorem c8_opacity_clamp_witness :
    (CoherentTMM EPolarization.kS 0 500 mTwo ⟨True⟩).1 =
      (CoherentTMM EPolarization.kS 0 500 mTwo ⟨False⟩).1 :=
  (c8_opacity_clamp EPolarization.kS 0 500 mTwo rfl).2.2.1 ⟨True⟩ ⟨False⟩

/-! ## Claim C6: Snell propagation and endpoint branch correction -/

theorem getLastD_eq_getD (l : List ℂ) (d : ℂ) : l.getLastD d = l.getD (l.length - 1) d := by
  rw [List.getLastD_eq_getLast?, List.getLast?_eq_getElem?, List.getD_eq_getElem?_getD]

theorem getD_set_ne (l : List ℂ) (j i : ℕ) (x : ℂ) (h : j ≠ i) :
    (l.set j x).getD i 0 = l.getD i 0 := by
  rw [List.getD_eq_getElem?_getD, List.getD_eq_getElem?_getD, List.getElem?_set_ne h]

theorem getD_set_self (l : List ℂ) (j : ℕ) (x : ℂ) (h : j < l.length) :
    (l.set j x).getD j 0 = x := by
  rw [List.getD_eq_getElem?_getD, List.getElem?_set_eq_of_lt _ h]
  rfl

open Classical in
/-- Claim C6: every entry of the Snell angle list is the principal arcsine
`arcsin(n_0 sin th_0 / n_i)`; after the list is built, exactly the first and
the last entry are replaced by pi minus themselves when they fail the
forward-angle diagnostic, and interior entries are never modified. -/
theorem c6_snell_propagation (th0 : ℂ) (nl : List ℂ) (h2 : 2 ≤ nl.length) :
    (ListSnell th0 nl).length = nl.length ∧
    (∀ i, 0 < i → i < nl.length - 1 →
        (ListSnell th0 nl).getD i 0 = snellAngle th0 nl i) ∧
    ((ListSnell th0 nl).getD 0 0 =
      if IsForwardAngle (nl.getD 0 0) (snellAngle th0 nl 0) then snellAngle th0 nl 0
      else (Real.pi : ℂ) - snellAngle th0 nl 0) ∧
    ((ListSnell th0 nl).getD (nl.length - 1) 0 =
      if IsForwardAngle (nl.getLastD 0) (snellAngle th0 nl (nl.length - 1))
      then snellAngle th0 nl (nl.length - 1)
      else (Real.pi : ℂ) - snellAngle th0 nl (nl.length - 1)) := by
  have hpos : 0 < nl.length := by omega
  have hlast_lt : nl.length - 1 < nl.length := by omega
  have hlast_ne : nl.length - 1 ≠ 0 := by omega
  simp only [ListSnell]
  set th := (List.range nl.length).map (snellAngle th0 nl) with hth
  have hthlen : th.length = nl.length := by rw [hth]; simp
  have hget : ∀ i, i < nl.length → th.getD i 0 = snellAngle th0 nl i := by
    intro i hi
    rw [hth]
    exact getD_map_range _ _ _ hi _
  have hfront := hget 0 hpos
  have hback := hget (nl.length - 1) hlast_lt
  rw [hfront]
  set th1 := if IsForwardAngle (nl.getD 0 0) (snellAngle th0 nl 0) then th
    else th.set 0 ((Real.pi : ℂ) - snellAngle th0 nl 0) with hth1
  have hth1len : th1.length = nl.length := by
    rw [hth1]
    split_ifs <;> simp [hthlen]
  have hth1_ne : ∀ i, i ≠ 0 → th1.getD i 0 = th.getD i 0 := by
    intro i hi
    rw [hth1]
    split_ifs with hc
    · rfl
    · exact getD_set_ne _ _ _ _ (Ne.symm hi)
  have hth1_front : th1.getD 0 0 =
      if IsForwardAngle (nl.getD 0 0) (snellAngle th0 nl 0) then snellAngle th0 nl 0
      else (Real.pi : ℂ) - snellAngle th0 nl 0 := by
    rw [hth1]
    split_ifs with hc
    · exact hfront
    · exact getD_set_self _ _ _ (by rw [hthlen]; omega)
  have hth1_back : th1.getLastD 0 = snellAngle th0 nl (nl.length - 1) := by
    rw [getLastD_eq_getD, hth1len, hth1_ne _ hlast_ne, hback]
  rw [hth1_back, hth1len]
  by_cases hc1 : IsForwardAngle (nl.getLastD 0) (snellAngle th0 nl (nl.length - 1))
  · rw [if_pos hc1]
    refine ⟨hth1len, ?_, hth1_front, ?_⟩
    · intro i h0 hi1
      rw [hth1_ne i (by omega), hget i (by omega)]
    · rw [hth1_ne _ hlast_ne, hback, if_pos hc1]
  · rw [if_neg hc1]
    refine ⟨by simp [hth1len], ?_, ?_, ?_⟩
    · intro i h0 hi1
      rw [getD_set_ne _ _ _ _ (by omega), hth1_ne i (by omega), hget i (by omega)]
    · rw [getD_set_ne _ _ _ _ hlast_ne, hth1_front]
    · rw [getD_set_self _ _ _ (by rw [hth1len]; omega), if_neg hc1]

/-- Witness for C6: the Snell list of the concrete two-entry index list has
the length of its input. -/
theorem c6_snell_propagation_witness :
    (ListSnell 0 [1, 1]).length = ([1, 1] : List ℂ).length :=
  (c6_snell_propagation 0 [1, 1] (by simp)).1

/-! ## Claim C1: per-layer matrices and the transfer-matrix composition -/

theorem MList_getD (pol : EPolarization) (th0 : ℂ) (lam : ℝ) (m : AMultilayer)
    (i : ℕ) (h1 : 1 ≤ i) (h2 : i ≤ numLayers m - 2) :
    (MList pol th0 lam m).getD i A2x2ComplexMatrix.zero = specLayerMatrix pol th0 lam m i := by
  obtain ⟨j, rfl⟩ : ∃ j, i = j + 1 := ⟨i - 1, by omega⟩
  simp only [MList]
  have hcons : ∀ (x : A2x2ComplexMatrix) (l : List A2x2ComplexMatrix) (n : ℕ)
      (d : A2x2ComplexMatrix), (x :: l).getD (n + 1) d = l.getD n d :=
    fun x l n d => List.getD_cons_succ
  rw [getD_append_left _ _ _ (by simp; omega), hcons,
    getD_map_range' _ _ _ _ (by omega), A2x2_smul_mul]
  have hj : 1 + j = j + 1 := Nat.add_comm 1 j
  rw [hj]
  rfl

/-- Claim C1: for a stack of at least two layers the solver builds, for each
interior layer `1 <= i <= N-2`, the matrix
`M_i = (1/t_i) ([[exp(-j delta_i), 0], [0, exp(j delta_i)]] [[1, r_i], [r_i, 1]])`,
composes `Mtilde` as the left-to-right product of these matrices (the
identity when N = 2), left-multiplies by `(1/t_0) [[1, r_0], [r_0, 1]]`, and
extracts `r = Mtilde_10 / Mtilde_00` and `t = 1 / Mtilde_00`. -/
theorem c1_transfer_matrix_composition (pol : EPolarization) (th0 : ℂ) (lam : ℝ)
    (m : AMultilayer) (hN : 2 ≤ numLayers m) :
    (∀ i, 1 ≤ i → i ≤ numLayers m - 2 →
        (MList pol th0 lam m).getD i A2x2ComplexMatrix.zero =
          specLayerMatrix pol th0 lam m i) ∧
    MtildeInner pol th0 lam m =
      ((List.range' 1 (numLayers m - 2)).map (specLayerMatrix pol th0 lam m)).foldl
        (fun A B => A * B) A2x2ComplexMatrix.one ∧
    (numLayers m = 2 → MtildeInner pol th0 lam m = A2x2ComplexMatrix.one) ∧
    Mtilde pol th0 lam m =
      ((1 / (tList pol th0 lam m).getD 0 0) •
        (⟨1, (rList pol th0 lam m).getD 0 0, (rList pol th0 lam m).getD 0 0, 1⟩ :
          A2x2ComplexMatrix)) * MtildeInner pol th0 lam m ∧
    rAmp pol th0 lam m = (Mtilde pol th0 lam m).Get10 / (Mtilde pol th0 lam m).Get00 ∧
    tAmp pol th0 lam m = 1 / (Mtilde pol th0 lam m).Get00 := by
  refine ⟨fun i hi1 hi2 => MList_getD pol th0 lam m i hi1 hi2, ?_, ?_, ?_, rfl, rfl⟩
  · simp only [MtildeInner]
    rw [List.foldl_map]
    apply List.foldl_ext
    intro A x hx
    obtain ⟨hx1, hx2⟩ := List.mem_range'_1.mp hx
    rw [MList_getD pol th0 lam m x hx1 (by omega)]
  · intro h2N
    simp only [MtildeInner, h2N]
    rfl
  · simp only [Mtilde]
    rw [A2x2_divScalar_eq_smul]

/-- Witness for C1: on the concrete two-layer stack the interior product is
the identity matrix. -/
theorem c1_transfer_matrix_composition_witness :
    MtildeInner EPolarization.kS 0 500 mTwo = A2x2ComplexMatrix.one :=
  (c1_transfer_matrix_composition EPolarization.kS 0 500 mTwo (by decide)).2.2.1 rfl

/-! ## Claim C4: input validation behavior -/

theorem nList_mTwo (lam : ℝ) : nList lam mTwo = [1, 1] := by
  simp [nList, mTwo, AMultilayer.construct, AMultilayer.InsertLayer, insertBeforeLast,
    constOne, GetComplexRefractiveIndex]

theorem numLayers_mTwo : numLayers mTwo = 2 := rfl

theorem snellAngle_mTwo (i : ℕ) : snellAngle 0 [1, 1] i = 0 := by
  simp [snellAngle, Complex.sin_zero, casin_zero]

theorem thList_mTwo (lam : ℝ) : thList 0 lam mTwo = [0, 0] := by
  rw [thList, nList_mTwo]
  simp only [ListSnell]
  have hth : (List.range ([1, 1] : List ℂ).length).map (snellAngle 0 [1, 1]) = [0, 0] := by
    simp [List.range_succ, snellAngle_mTwo]
  rw [hth]
  rw [if_pos (show IsForwardAngle (([1, 1] : List ℂ).getD 0 0) (([0, 0] : List ℂ).getD 0 0)
    from isForwardAngle_one_zero)]
  rw [if_pos (show IsForwardAngle (([1, 1] : List ℂ).getLastD 0) (([0, 0] : List ℂ).getLastD 0)
    from isForwardAngle_one_zero)]

theorem tList_mTwo_kS (lam : ℝ) : tList EPolarization.kS 0 lam mTwo = [1] := by
  simp only [tList, numLayers_mTwo, thList_mTwo, nList_mTwo]
  norm_num [List.range_succ, Complex.cos_zero]

theorem rList_mTwo_kS (lam : ℝ) : rList EPolarization.kS 0 lam mTwo = [0] := by
  simp only [rList, numLayers_mTwo, thList_mTwo, nList_mTwo]
  norm_num [List.range_succ, Complex.cos_zero]

theorem MtildeInner_mTwo (pol : EPolarization) (lam : ℝ) :
    MtildeInner pol 0 lam mTwo = A2x2ComplexMatrix.one := by
  simp only [MtildeInner, numLayers_mTwo]
  rfl

theorem Mtilde_mTwo_kS (lam : ℝ) :
    Mtilde EPolarization.kS 0 lam mTwo = A2x2ComplexMatrix.one := by
  simp only [Mtilde, MtildeInner_mTwo, tList_mTwo_kS, rList_mTwo_kS]
  simp only [A2x2_mul_eq, A2x2ComplexMatrix.mul, A2x2ComplexMatrix.divScalar,
    A2x2ComplexMatrix.one, A2x2ComplexMatrix.mk.injEq]
  norm_num

theorem reflectance_mTwo_kS (lam : ℝ) : reflectance EPolarization.kS 0 lam mTwo = 0 := by
  simp [reflectance, rAmp, Mtilde_mTwo_kS, A2x2ComplexMatrix.one]

theorem transmittance_mTwo_kS (lam : ℝ) : transmittance EPolarization.kS 0 lam mTwo = 1 := by
  simp only [transmittance, tAmp, Mtilde_mTwo_kS, nList_mTwo, thList_mTwo,
    A2x2ComplexMatrix.one]
  norm_num [Complex.cos_zero]

theorem not_inputErrCond_mTwo (lam : ℝ) : ¬ inputErrCond 0 lam mTwo := by
  intro h
  rcases h with h | h
  · rw [nList_mTwo] at h
    simp only [List.getD_cons_zero, Complex.sin_zero, mul_zero, Complex.zero_im,
      abs_zero] at h
    have := EPSILON_pos
    nlinarith
  · rw [nList_mTwo] at h
    exact h isForwardAngle_one_zero

/-- Amended claim C4: the solver checks only the `th_0`/`n_0` condition
(`|Im(n_0 sin th_0)| >= 100 eps` or `th_0` not forward in layer 0); when it
holds it reports the diagnostic but still computes and returns R and T; a
result is produced for every input, and `lam <= 0` is never checked. -/
theorem c4_amended_reporting (pol : EPolarization) (th0 : ℂ) (lam : ℝ) (m : AMultilayer)
    (s : ProcState) :
    ((CoherentTMM pol th0 lam m s).1.inputErrorReported ↔
      (100 * EPSILON ≤ |((nList lam m).getD 0 0 * Complex.sin th0).im| ∨
        ¬ IsForwardAngle ((nList lam m).getD 0 0) th0)) ∧
    (CoherentTMM pol th0 lam m s).1.result =
      some (reflectance pol th0 lam m, transmittance pol th0 lam m) ∧
    ((CoherentTMM pol th0 lam m s).1.result).isSome = true :=
  ⟨Iff.rfl, rfl, rfl⟩

/-- Counterexample to claim C4 as stated: at the concrete input with vacuum
wavelength `lam = -500 <= 0` (two vacuum layers, normal incidence, S
polarization) the solver reports no domain error and returns the result
(R, T) = (0, 1), rather than reporting an error and returning no result. -/
theorem c4_counterexample :
    ¬ (CoherentTMM EPolarization.kS 0 (-500) mTwo ⟨False⟩).1.inputErrorReported ∧
    (CoherentTMM EPolarization.kS 0 (-500) mTwo ⟨False⟩).1.result = some (0, 1) := by
  constructor
  · exact not_inputErrCond_mTwo (-500)
  · show some (reflectance EPolarization.kS 0 (-500) mTwo,
      transmittance EPolarization.kS 0 (-500) mTwo) = some (0, 1)
    rw [reflectance_mTwo_kS, transmittance_mTwo_kS]
